import Mathlib

/-!
Shallow embedding of the iPuppy-Notebooks client-side notebook
synchronization layer (React `App` component drafts) and proofs about its
cell-store operations, socket-event dispatcher, autosave scheduler and
completion bridge.

Cells live in a JavaScript array of objects.  We model a JS array slot as
`Option PCell` (`none` = `undefined` / hole) and a cell object as a record
of optional fields (a property may be absent).  JS `Array.prototype.splice`
index clamping, out-of-range reads (`undefined`) and out-of-range index
assignment (which extends the array) are modelled explicitly, because
several handlers rely on — or are exposed to — these behaviours.
-/

namespace IPuppy

/-- The `cell_type` tag of a notebook cell (`'code' | 'markdown'`). -/
inductive CellType
  | code
  | markdown
deriving DecidableEq, Repr

/-- A JS cell object: every property may be absent (`undefined`).
Mirrors `NotebookCellType` (`cell_type`, `source: string[]`,
`outputs?: string[]`). -/
structure PCell where
  cell_type : Option CellType
  source : Option (List String)
  outputs : Option (List String)
deriving DecidableEq, Repr

/-- A slot of the JS cell array: `none` is `undefined` (or a hole). -/
abbrev JsCell := Option PCell

/-- A fully formed cell as produced by `addCell` / `handleAddCellMessage`. -/
def mkCell (t : CellType) (src outs : List String) : JsCell :=
  some ⟨some t, some src, some outs⟩

/-- A slot holds a well-formed cell when the object exists and carries both
a `cell_type` and a `source`. -/
def wellFormedCell (c : JsCell) : Bool :=
  match c with
  | some p => p.cell_type.isSome && p.source.isSome
  | none => false

/-- Clamped start index of `Array.prototype.splice`: negative values count
from the end (clamped to 0), positive values are clamped to the length. -/
def spliceStart (len : Nat) (start : Int) : Nat :=
  if start < 0 then ((len : Int) + start).toNat else min start.toNat len

/-- `arr.splice(start, count)`: returns `(removed, remaining)`. -/
def spliceRemove (l : List α) (start : Int) (count : Nat) :
    List α × List α :=
  let s := spliceStart l.length start
  ((l.drop s).take count, l.take s ++ l.drop (s + count))

/-- `arr.splice(start, 0, x)`: inserts `x` at the clamped start index. -/
def spliceInsert (l : List α) (start : Int) (x : α) : List α :=
  let s := spliceStart l.length start
  l.take s ++ x :: l.drop s

/-- `arr[i]` on a JS array of cell slots: out-of-range and negative reads
give `undefined`. -/
def jsGet (l : List JsCell) (i : Int) : JsCell :=
  if 0 ≤ i then l.getD i.toNat none else none

/-- `arr[i] = v` for `i ≥ 0`: assigns in place when `i` is in range, and
otherwise extends the array to length `i + 1`, leaving holes in between. -/
def jsSet (l : List JsCell) (i : Nat) (v : JsCell) : List JsCell :=
  if i < l.length then l.set i v
  else l ++ List.replicate (i - l.length) none ++ [v]

/-- `arr[i] = v` for any integer `i`: a negative index names a plain object
property, leaving the array elements untouched. -/
def jsSetI (l : List JsCell) (i : Int) (v : JsCell) : List JsCell :=
  if 0 ≤ i then jsSet l i.toNat v else l

/-- `handleMoveCellMessage` (both `App.tsx` drafts): after the numeric
checks on `cell_index` and `new_index`, remove one element at `cell_index`
(`const [movedCell] = newContent.splice(cell_index, 1)` — `movedCell` is
`undefined` when the splice removed nothing) and insert it at `new_index`. -/
def handleMoveCellMessage (l : List JsCell) (cell_index new_index : Int) :
    List JsCell :=
  let r := spliceRemove l cell_index 1
  let movedCell := r.1.headD none
  spliceInsert r.2 new_index movedCell

/-- Spec-side operation, named from the spec text for the refinement claim
about `move_cell`: "remove from index A". -/
def specRemoveAt (l : List α) (i : Nat) : List α :=
  l.take i ++ l.drop (i + 1)

/-- Spec-side operation, named from the spec text for the refinement claim
about `move_cell`: "insert at index B". -/
def specInsertAt (l : List α) (i : Nat) (x : α) : List α :=
  l.take i ++ x :: l.drop i

/-- JS truthiness of an optional string field: absent (`undefined`) and the
empty string are falsy. -/
def strTruthy (s : Option String) : Bool :=
  match s with
  | none => false
  | some s => s ≠ ""

/-- Characters stripped by JS `String.prototype.trim` (the ASCII whitespace
characters plus no-break space; the sources only ever hit these). -/
def isJsSpace (c : Char) : Bool :=
  c = ' ' || c = '\t' || c = '\n' || c = '\r' ||
    c = Char.ofNat 11 || c = Char.ofNat 12 || c = Char.ofNat 0xA0

/-- JS `String.prototype.trim`. -/
def jsTrim (s : String) : String :=
  ⟨((s.data.dropWhile isJsSpace).reverse.dropWhile isJsSpace).reverse⟩

/-- Client state touched by the dispatcher: the ordered cell list, the set
of currently executing cell indices, and the autosave-enabled flag.
(DOM-only effects such as `scrollToCell` have no state to model; the
autosave timer itself is modelled separately below.) -/
structure ClientState where
  notebookContent : List JsCell
  executingCells : Finset Int
  autoSaveEnabled : Bool
deriving DecidableEq

/-- Payload of an inbound `execution_result` event.  `none` in `cell_index`
stands for an absent or non-numeric field, `none` in `status` / `output`
for an absent field; `append` is the truthiness of `data.append`. -/
structure ExecutionResultMsg where
  cell_index : Option Int
  status : Option String
  output : Option String
  append : Bool

/-- The mutation performed inside the `running` branch of
`handleSocketMessage`: `const cell = newContent[cellIndex];
if (cell) { cell.outputs = []; }`. -/
def setCellOutputsEmpty (l : List JsCell) (i : Int) : List JsCell :=
  match jsGet l i with
  | some p => l.set i.toNat (some { p with outputs := some [] })
  | none => l

/-- The mutation performed inside the output branch of
`handleSocketMessage`: replace the cell's outputs with `[data.output]`, or
append `data.output` to `cell.outputs || []` when `data.append` is truthy. -/
def applyOutputChunk (l : List JsCell) (i : Int) (out : String)
    (append : Bool) : List JsCell :=
  match jsGet l i with
  | some p =>
      let outs := if append then p.outputs.getD [] ++ [out] else [out]
      l.set i.toNat (some { p with outputs := some outs })
  | none => l

/-- `handleSocketMessage` of the most complete draft (`src/unnamed/part_001`):
on a numeric `cell_index`, the `running` status marks the cell executing and
clears its outputs, `completed`/`error` unmark it and re-enable autosave,
and a truthy `output` chunk is then applied with `append` semantics. -/
def handleSocketMessage (s : ClientState) (data : ExecutionResultMsg) :
    ClientState :=
  match data.cell_index with
  | none => s
  | some cellIndex =>
    let s1 :=
      if data.status = some "running" then
        { s with
          executingCells := insert cellIndex s.executingCells,
          notebookContent := setCellOutputsEmpty s.notebookContent cellIndex }
      else if data.status = some "completed" ∨ data.status = some "error" then
        { s with
          executingCells := s.executingCells.erase cellIndex,
          autoSaveEnabled := true }
      else s
    if strTruthy data.output then
      let content := applyOutputChunk s1.notebookContent cellIndex
        (data.output.getD "") data.append
      { s1 with notebookContent := content }
    else s1

/-- Payload of a `read_cell_input_request` / `read_cell_output_request`
event: `cell_index` must be numeric and `request_id` truthy for the handler
to act. -/
structure ReadReqMsg where
  cell_index : Option Int
  request_id : Option String

/-- A `read_cell_output_response` emission. -/
structure OutputResponse where
  request_id : String
  outputs : List String
deriving DecidableEq, Repr

/-- A `read_cell_input_response` emission. -/
structure InputResponse where
  request_id : String
  content : String
deriving DecidableEq, Repr

/-- `handleReadCellOutputRequest`: reply with `cell.outputs || []` when the
indexed slot holds a cell, and with an explicit empty list otherwise; emit
nothing when `cell_index` is not numeric or `request_id` is falsy. -/
def handleReadCellOutputRequest (l : List JsCell) (data : ReadReqMsg) :
    List OutputResponse :=
  match data.cell_index, data.request_id with
  | some i, some rid =>
      if rid ≠ "" then
        match jsGet l i with
        | some p => [⟨rid, p.outputs.getD []⟩]
        | none => [⟨rid, []⟩]
      else []
  | _, _ => []

/-- `handleReadCellInputRequest`: reply with `cell.source.join('')` when the
indexed slot holds a cell (a JS `TypeError`, modelled as `none`, if its
`source` is absent), and with an explicit empty string otherwise. -/
def handleReadCellInputRequest (l : List JsCell) (data : ReadReqMsg) :
    Option (List InputResponse) :=
  match data.cell_index, data.request_id with
  | some i, some rid =>
      if rid ≠ "" then
        match jsGet l i with
        | some p => p.source.map (fun src => [⟨rid, String.join src⟩])
        | none => some [⟨rid, ""⟩]
      else some []
  | _, _ => some []

/-- `addCell`: append a fresh empty code cell. -/
def addCell (l : List JsCell) : List JsCell :=
  l ++ [mkCell .code [""] []]

/-- The object spread `{ ...base, ...patch }` where `base` may be
`undefined`: each field comes from `patch` when present there, otherwise
from `base`. -/
def mergeSpread (base : JsCell) (patch : PCell) : PCell where
  cell_type := patch.cell_type <|> base.bind PCell.cell_type
  source := patch.source <|> base.bind PCell.source
  outputs := patch.outputs <|> base.bind PCell.outputs

/-- `updateCell(index, patch)`:
`next[index] = { ...next[index], ...patch }`.  For a negative index this
sets a non-index property (no effect on the cell list); for `index` at or
beyond the length it extends the array. -/
def updateCell (l : List JsCell) (index : Int) (patch : PCell) :
    List JsCell :=
  if 0 ≤ index then
    jsSet l index.toNat (some (mergeSpread (jsGet l index) patch))
  else l

/-- `handleDeleteCell` / `handleDeleteCellMessage`:
`prev.filter((_, i) => i !== index)`. -/
def handleDeleteCell (l : List JsCell) (index : Int) : List JsCell :=
  ((l.enum.filter fun p => (p.1 : Int) ≠ index).map Prod.snd)

/-- `handleMoveCellUp`: when `index > 0`, the destructuring swap
`[a[index-1], a[index]] = [a[index], a[index-1]]` — both reads happen
before either write. -/
def handleMoveCellUp (l : List JsCell) (index : Int) : List JsCell :=
  if 0 < index then
    let vi := jsGet l index
    let vim := jsGet l (index - 1)
    jsSetI (jsSetI l (index - 1) vi) index vim
  else l

/-- `handleMoveCellDown`: when `index < length - 1`, the destructuring swap
`[a[index], a[index+1]] = [a[index+1], a[index]]`. -/
def handleMoveCellDown (l : List JsCell) (index : Int) : List JsCell :=
  if index < (l.length : Int) - 1 then
    let vn := jsGet l (index + 1)
    let vi := jsGet l index
    jsSetI (jsSetI l index vn) (index + 1) vi
  else l

/-- Notification severities of `showAlert`. -/
inductive Severity
  | success
  | error
  | warning
  | info
deriving DecidableEq, Repr

/-- The `execute_code` message emitted over the socket. -/
structure ExecuteCodeMsg where
  cell_index : Int
  code : String
deriving DecidableEq, Repr

/-- Outcome of the HTTP fallback `POST /api/v1/execute`: a network error or
non-ok status (both land in the `catch`), or a JSON body whose `outputs`
field may be absent. -/
inductive HttpExecOutcome
  | failure
  | ok (outputs : Option (List String))

/-- Observable effects of one `executeCell` call: alerts shown, socket
messages emitted, number of HTTP fallback execution requests sent, and the
resulting client state. -/
structure ExecEffects where
  alerts : List (String × Severity)
  emits : List ExecuteCodeMsg
  httpExecRequests : Nat
  state : ClientState
deriving DecidableEq

/-- `executeCell(index)` (draft `part_001`; the `src/src/App.tsx` version is
identical except that its autosave toggles are commented out).  `none`
models the JS `TypeError` paths (reading `cell_type` of `undefined`, or
`join` of an absent `source`).  `connected` is whether
`socketRef.current` exists and is connected; `httpResult` resolves the HTTP
fallback. -/
def executeCell (s : ClientState) (index : Int) (connected : Bool)
    (httpResult : HttpExecOutcome) : Option ExecEffects :=
  match jsGet s.notebookContent index with
  | none => none
  | some cell =>
    if cell.cell_type ≠ some CellType.code then
      some ⟨[], [], 0, s⟩
    else
      match cell.source with
      | none => none
      | some src =>
        let joined := String.join src
        if jsTrim joined = "" then
          some ⟨[("Cell is empty", .warning)], [], 0, s⟩
        else if !connected then
          match httpResult with
          | .failure =>
              some ⟨[("Socket.IO not connected. Trying to execute via HTTP...",
                .warning), ("HTTP execution also failed", .error)], [], 1, s⟩
          | .ok outs =>
              let content := updateCell s.notebookContent index
                ⟨none, none, some (outs.getD [])⟩
              some ⟨[("Socket.IO not connected. Trying to execute via HTTP...",
                .warning), ("Executed via HTTP fallback", .info)], [], 1,
                { s with notebookContent := content }⟩
        else
          let content := updateCell s.notebookContent index ⟨none, none, some []⟩
          some ⟨[], [⟨index, joined⟩], 0,
            { notebookContent := content,
              executingCells := insert index s.executingCells,
              autoSaveEnabled := false }⟩

/-- Autosave timer state: `pending` is the absolute firing deadline of the
timer held in `autoSaveTimeoutRef` (if any), `saves` counts the
`saveNotebook(true)` calls that have fired. -/
structure AutoSaveState where
  pending : Option Nat
  saves : Nat
deriving DecidableEq, Repr

/-- `scheduleAutoSave` called at absolute time `now` (ms): bail out unless
autosave is enabled and a notebook is open; otherwise clear any pending
timer and arm a fresh one for `now + 200`. -/
def scheduleAutoSave (autoSaveEnabled notebookOpen : Bool) (now : Nat)
    (st : AutoSaveState) : AutoSaveState :=
  if !autoSaveEnabled || !notebookOpen then st
  else { st with pending := some (now + 200) }

/-- Advance the event loop to time `t`: a pending timer whose deadline has
been reached fires, calling `saveNotebook(true)` and clearing the slot. -/
def elapse (t : Nat) (st : AutoSaveState) : AutoSaveState :=
  match st.pending with
  | some d => if d ≤ t then ⟨none, st.saves + 1⟩ else st
  | none => st

/-- Run a burst of `scheduleAutoSave` calls at the given absolute times:
before each call, any timer whose deadline has passed fires first. -/
def runSchedules (autoSaveEnabled notebookOpen : Bool) :
    AutoSaveState → List Nat → AutoSaveState
  | st, [] => st
  | st, t :: rest =>
      runSchedules autoSaveEnabled notebookOpen
        (scheduleAutoSave autoSaveEnabled notebookOpen t (elapse t st)) rest

/-- Total number of saves fired by a burst of schedules once the event loop
goes quiet (any still-pending timer fires). -/
def totalSaves (autoSaveEnabled notebookOpen : Bool) (ts : List Nat) : Nat :=
  let st := runSchedules autoSaveEnabled notebookOpen ⟨none, 0⟩ ts
  st.saves + (if st.pending.isSome then 1 else 0)

/-- The editor-side inputs of `pythonCompletion` (`src/src/App.tsx`):
`matched` is whether `context.matchBefore(/\w*$/)` returned a match,
`wordFrom`/`wordTo` its span, `explicit` is `context.explicit`. -/
structure CompletionCtx where
  matched : Bool
  wordFrom : Int
  wordTo : Int
  explicit : Bool
  code : String
  pos : Int

/-- The `completions` object in a `POST /api/v1/complete` reply; the
`matches` field (here `cMatches`) may be absent. -/
structure CompletionsPayload where
  cMatches : Option (List String)
  cursor_start : Int
  cursor_end : Int

/-- Outcome of the completion fetch: a network error (caught), a non-ok
HTTP status, or a JSON reply. -/
inductive FetchOutcome
  | failure
  | notOk
  | ok (completions : CompletionsPayload)

/-- A CodeMirror completion result: replacement span plus candidate
labels. -/
structure CompletionResult where
  rFrom : Int
  rTo : Int
  labels : List String
deriving DecidableEq, Repr

/-- `pythonCompletion` (`src/src/App.tsx`): `null` when there is no word
match (unless explicit), on fetch failure, on non-ok status, and when
`completions.matches` is absent or empty; otherwise the server-given
`cursor_start` / `cursor_end` span with one option per match. -/
def pythonCompletion (ctx : CompletionCtx) (outcome : FetchOutcome) :
    Option CompletionResult :=
  if !ctx.matched || (ctx.wordFrom = ctx.wordTo && !ctx.explicit) then none
  else
    match outcome with
    | .failure => none
    | .notOk => none
    | .ok c =>
      match c.cMatches with
      | none => none
      | some ms => if ms.length = 0 then none
          else some ⟨c.cursor_start, c.cursor_end, ms⟩

/-- The editor-side inputs of `filePathCompletion` (`src/src/server.js`):
whether the cursor is in a file-path string context, the partial path (or
`null`), `context.explicit`, the cursor position, and whether a `String`
syntax node encloses the cursor. -/
structure FilePathCtx where
  inPathContext : Bool
  partialPath : Option String
  explicit : Bool
  pos : Int
  stringNodeFound : Bool

/-- Outcome of the promise inside `filePathCompletion`: the 5-second
timeout resolves `null`; a matching `error` event rejects (caught to
`null`); or a `file_completion_response` with the request's id arrives. -/
inductive FileCompletionOutcome
  | timeout
  | errorEvent
  | response (completions : List String)

/-- `partialPath.split('/').pop() || ''`. -/
def lastPathComponent (p : String) : String :=
  (p.splitOn "/").getLastD ""

/-- `filePathCompletion` (`src/src/server.js`): guards, then resolve `null`
on timeout / error / empty completions / no enclosing string node, else a
locally computed replacement span ending at the cursor. -/
def filePathCompletion (ctx : FilePathCtx)
    (outcome : FileCompletionOutcome) : Option CompletionResult :=
  if !ctx.inPathContext then none
  else
    match ctx.partialPath with
    | none => none
    | some p =>
      if !ctx.explicit && p.length < 2 then none
      else
        match outcome with
        | .timeout => none
        | .errorEvent => none
        | .response completions =>
          if completions.length = 0 then none
          else if !ctx.stringNodeFound then none
          else
            let replacementStart :=
              if p.startsWith "~/" then ctx.pos - p.length
              else ctx.pos - (lastPathComponent p).length
            some ⟨replacementStart, ctx.pos, completions⟩

/-- One user-driven cell-store operation. -/
inductive CellOp
  | add
  | delete (i : Int)
  | up (i : Int)
  | down (i : Int)
deriving DecidableEq, Repr

/-- Apply one cell-store operation with the source handlers. -/
def applyOp (l : List JsCell) : CellOp → List JsCell
  | .add => addCell l
  | .delete i => handleDeleteCell l i
  | .up i => handleMoveCellUp l i
  | .down i => handleMoveCellDown l i

/-- Apply a sequence of cell-store operations left to right. -/
def applyOps (l : List JsCell) : List CellOp → List JsCell
  | [] => l
  | op :: ops => applyOps (applyOp l op) ops

/-- Validity of one operation against the current list, as exercised by the
UI: `delete` needs an in-range index, `up` an index below the length
(`up 0` and `down (len - 1)` are the guarded boundary no-ops). -/
def wfOp (l : List JsCell) : CellOp → Bool
  | .add => true
  | .delete i => 0 ≤ i && i < (l.length : Int)
  | .up i => i < (l.length : Int)
  | .down _ => true

/-- Validity of a whole operation sequence, step by step. -/
def wfTrace : List JsCell → List CellOp → Bool
  | _, [] => true
  | l, op :: ops => wfOp l op && wfTrace (applyOp l op) ops

/-- Signed change an operation makes to the cell count. -/
def opDelta : CellOp → Int
  | .add => 1
  | .delete _ => -1
  | .up _ => 0
  | .down _ => 0

/-! ### Helper lemmas -/

lemma spliceStart_eq {len : Nat} {i : Int} (h0 : 0 ≤ i) (h : i.toNat ≤ len) :
    spliceStart len i = i.toNat := by
  simp only [spliceStart, if_neg (by omega : ¬ i < 0)]
  exact Nat.min_eq_left h

lemma headD_take_one_drop {α : Type} (l : List α) (a : Nat) (d : α)
    (h : a < l.length) : ((l.drop a).take 1).headD d = l.getD a d := by
  induction l generalizing a with
  | nil => simp at h
  | cons x xs ih =>
    cases a with
    | zero => simp
    | succ a =>
      simp only [List.drop_succ_cons, List.getD_cons_succ]
      exact ih a (by simpa using h)

lemma length_specRemoveAt {α : Type} (l : List α) (a : Nat)
    (h : a < l.length) : (specRemoveAt l a).length = l.length - 1 := by
  simp only [specRemoveAt, List.length_append, List.length_take,
    List.length_drop, Nat.min_eq_left (le_of_lt h)]
  omega

lemma getD_specRemoveAt_lt {α : Type} (l : List α) (a j : Nat) (d : α)
    (hj : j < a) (ha : a ≤ l.length) :
    (specRemoveAt l a).getD j d = l.getD j d := by
  simp only [specRemoveAt, List.getD_eq_getElem?_getD]
  rw [List.getElem?_append_left (by simp [List.length_take]; omega),
    List.getElem?_take_of_lt hj]

lemma getD_specRemoveAt_ge {α : Type} (l : List α) (a j : Nat) (d : α)
    (hj : a ≤ j) (ha : a ≤ l.length) :
    (specRemoveAt l a).getD j d = l.getD (j + 1) d := by
  simp only [specRemoveAt, List.getD_eq_getElem?_getD]
  rw [List.getElem?_append_right (by simp [List.length_take]; omega),
    List.getElem?_drop]
  have : a + 1 + (j - (l.take a).length) = j + 1 := by
    simp [List.length_take]
    omega
  rw [this]

lemma getD_specInsertAt_lt {α : Type} (l : List α) (b j : Nat) (x d : α)
    (hj : j < b) (hb : b ≤ l.length) :
    (specInsertAt l b x).getD j d = l.getD j d := by
  simp only [specInsertAt, List.getD_eq_getElem?_getD]
  rw [List.getElem?_append_left (by simp [List.length_take]; omega),
    List.getElem?_take_of_lt hj]

lemma getD_specInsertAt_ge {α : Type} (l : List α) (b j : Nat) (x d : α)
    (hj : b ≤ j) (hb : b ≤ l.length) :
    (specInsertAt l b x).getD (j + 1) d = l.getD j d := by
  simp only [specInsertAt, List.getD_eq_getElem?_getD]
  rw [List.getElem?_append_right (by simp [List.length_take]; omega)]
  have hlen : (l.take b).length = b := by simp [List.length_take]; omega
  have : j + 1 - (l.take b).length = (j - b) + 1 := by rw [hlen]; omega
  rw [this, List.getElem?_cons_succ, List.getElem?_drop]
  have : b + (j - b) = j := by omega
  rw [this]

/-! ### Claim theorems -/

/-- Claim C1: for every cell list and every `move_cell` event with numeric
indices `A` and `B` within range, `handleMoveCellMessage` produces the list
obtained by removing at `A` and then inserting at `B` (two-step splice, not
a swap); every index strictly between the two positions shifts by one
(towards `A`). -/
theorem move_cell_splice_spec (l : List JsCell) (A B : Int)
    (hA0 : 0 ≤ A) (hA : A < (l.length : Int))
    (hB0 : 0 ≤ B) (hB : B < (l.length : Int)) :
    handleMoveCellMessage l A B
      = specInsertAt (specRemoveAt l A.toNat) B.toNat (jsGet l A)
    ∧ (∀ i : Nat, A.toNat < i → i ≤ B.toNat →
        (handleMoveCellMessage l A B).getD (i - 1) none = l.getD i none)
    ∧ (∀ i : Nat, B.toNat ≤ i → i < A.toNat →
        (handleMoveCellMessage l A B).getD (i + 1) none = l.getD i none) := by
  have hAn : A.toNat < l.length := by omega
  have hBn : B.toNat < l.length := by omega
  have hlenR : (specRemoveAt l A.toNat).length = l.length - 1 :=
    length_specRemoveAt l A.toNat hAn
  have hmain : handleMoveCellMessage l A B
      = specInsertAt (specRemoveAt l A.toNat) B.toNat (jsGet l A) := by
    have hs : spliceStart l.length A = A.toNat :=
      spliceStart_eq hA0 (le_of_lt hAn)
    have hmoved : ((l.drop A.toNat).take 1).headD (none : JsCell)
        = jsGet l A := by
      rw [headD_take_one_drop _ _ _ hAn]
      simp [jsGet, hA0]
    have hs2 : spliceStart (l.take A.toNat ++ l.drop (A.toNat + 1)).length B
        = B.toNat := by
      have : (l.take A.toNat ++ l.drop (A.toNat + 1)).length
          = l.length - 1 := by
        simp [List.length_take]
        omega
      rw [this]
      exact spliceStart_eq hB0 (by omega)
    simp only [handleMoveCellMessage, spliceRemove, spliceInsert, hs]
    rw [hmoved, hs2]
    rfl
  refine ⟨hmain, fun i h1 h2 => ?_, fun i h1 h2 => ?_⟩
  · rw [hmain,
      getD_specInsertAt_lt _ _ _ _ _ (by omega) (by omega),
      getD_specRemoveAt_ge _ _ _ _ (by omega) (by omega)]
    have : i - 1 + 1 = i := by omega
    rw [this]
  · rw [hmain,
      getD_specInsertAt_ge _ _ _ _ _ (by omega) (by omega),
      getD_specRemoveAt_lt _ _ _ _ (by omega) (by omega)]

/-- Witness for C1 at the spec's own example: `move_cell(0,2)` on
`[A,B,C]` yields `[B,C,A]`. -/
theorem move_cell_splice_spec_witness :
    handleMoveCellMessage
        [mkCell .code ["a"] [], mkCell .code ["b"] [], mkCell .code ["c"] []]
        0 2
      = specInsertAt
          (specRemoveAt
            [mkCell .code ["a"] [], mkCell .code ["b"] [],
              mkCell .code ["c"] []] 0)
          2
          (jsGet
            [mkCell .code ["a"] [], mkCell .code ["b"] [],
              mkCell .code ["c"] []] 0)
    ∧ handleMoveCellMessage
        [mkCell .code ["a"] [], mkCell .code ["b"] [], mkCell .code ["c"] []]
        0 2
      = [mkCell .code ["b"] [], mkCell .code ["c"] [], mkCell .code ["a"] []] :=
  ⟨(move_cell_splice_spec _ 0 2 (by decide) (by decide) (by decide)
      (by decide)).1,
    by decide⟩

lemma length_specInsertAt {α : Type} (l : List α) (b : Nat) (x : α)
    (h : b ≤ l.length) : (specInsertAt l b x).length = l.length + 1 := by
  simp only [specInsertAt, List.length_append, List.length_take,
    List.length_cons, List.length_drop, Nat.min_eq_left h]
  omega

lemma getElem?_specInsertAt_self {α : Type} (l : List α) (b : Nat) (x : α)
    (h : b ≤ l.length) : (specInsertAt l b x)[b]? = some x := by
  simp only [specInsertAt]
  rw [List.getElem?_append_right (by simp [List.length_take])]
  have hz : b - (l.take b).length = 0 := by
    simp [List.length_take, Nat.min_eq_left h]
  rw [hz, List.getElem?_cons_zero]

lemma jsGet_eq_none_of_ge (l : List JsCell) (i : Int)
    (h : (l.length : Int) ≤ i) : jsGet l i = none := by
  have h0 : 0 ≤ i := le_trans (by positivity) h
  simp only [jsGet, if_pos h0, List.getD_eq_getElem?_getD]
  rw [List.getElem?_eq_none (by omega)]
  rfl

lemma jsGet_isSome_bounds {l : List JsCell} {i : Int} {p : PCell}
    (h : jsGet l i = some p) : 0 ≤ i ∧ i.toNat < l.length := by
  by_cases h0 : 0 ≤ i
  · refine ⟨h0, ?_⟩
    by_contra hlen
    simp only [jsGet, if_pos h0, List.getD_eq_getElem?_getD] at h
    rw [List.getElem?_eq_none (by omega)] at h
    simp at h
  · simp [jsGet, h0] at h

lemma jsGet_eq_getElem? {l : List JsCell} {i : Int} (h0 : 0 ≤ i) :
    jsGet l i = (l[i.toNat]?).getD none := by
  simp [jsGet, h0]

/-- Claim C10: a `move_cell` event whose numeric `cell_index` is at or
beyond the cell count does not leave the list unchanged: the removal splice
removes nothing, the insertion splice inserts an `undefined` entry at
`new_index`, and the length grows by one, leaving a slot that is not a
well-formed cell. -/
theorem move_cell_out_of_range (l : List JsCell) (A B : Int)
    (hA : (l.length : Int) ≤ A) (hB0 : 0 ≤ B) (hB : B ≤ (l.length : Int)) :
    (spliceRemove l A 1).1 = [] ∧ (spliceRemove l A 1).2 = l
    ∧ handleMoveCellMessage l A B = specInsertAt l B.toNat none
    ∧ (handleMoveCellMessage l A B).length = l.length + 1
    ∧ (handleMoveCellMessage l A B)[B.toNat]? = some none
    ∧ wellFormedCell none = false
    ∧ handleMoveCellMessage l A B ≠ l := by
  have hA0 : 0 ≤ A := le_trans (by positivity) hA
  have hs : spliceStart l.length A = l.length := by
    simp only [spliceStart, if_neg (by omega : ¬ A < 0)]
    exact Nat.min_eq_right (by omega)
  have hBn : B.toNat ≤ l.length := by omega
  have hrem1 : (spliceRemove l A 1).1 = [] := by
    simp [spliceRemove, hs]
  have hrem2 : (spliceRemove l A 1).2 = l := by
    simp [spliceRemove, hs]
  have hmain : handleMoveCellMessage l A B = specInsertAt l B.toNat none := by
    simp only [handleMoveCellMessage, hrem1, hrem2, List.headD_nil]
    simp only [spliceInsert, spliceStart_eq hB0 hBn, specInsertAt]
  have hlen : (handleMoveCellMessage l A B).length = l.length + 1 := by
    rw [hmain]
    exact length_specInsertAt l B.toNat none hBn
  refine ⟨hrem1, hrem2, hmain, hlen, ?_, rfl, ?_⟩
  · rw [hmain]
    exact getElem?_specInsertAt_self l B.toNat none hBn
  · intro hcontra
    rw [hcontra] at hlen
    omega

/-- Witness for C10: `move_cell(2,0)` on a one-cell notebook grows the list
to `[undefined, cell]`. -/
theorem move_cell_out_of_range_witness :
    handleMoveCellMessage [mkCell .code ["a"] []] 2 0
      = specInsertAt [mkCell .code ["a"] []] 0 none
    ∧ handleMoveCellMessage [mkCell .code ["a"] []] 2 0
      = [none, mkCell .code ["a"] []] :=
  ⟨(move_cell_out_of_range [mkCell .code ["a"] []] 2 0 (by decide) (by decide)
      (by decide)).2.2.1,
    by decide⟩

/-- Counterexample to C2 as stated: a `running` event that also carries a
truthy output chunk does not leave the cell's outputs list empty — the
prior outputs are cleared but the chunk is then stored, so the outputs list
ends up `["out"]`, not `[]`. -/
theorem running_with_output_counterexample :
    ((handleSocketMessage ⟨[mkCell .code ["x"] ["old"]], ∅, true⟩
        ⟨some 0, some "running", some "out", false⟩).notebookContent.getD
          0 none).bind PCell.outputs = some ["out"]
    ∧ some ["out"] ≠ some ([] : List String) := by decide

/-- Claim C2 (amended): for an `execution_result` event with a numeric
in-range `cell_index` holding a cell, status `running`, and no truthy
output chunk, the dispatcher adds the index to the executing set, empties
that cell's outputs (leaving its other fields as they were) and leaves
every other cell unchanged. -/
theorem running_marks_executing_clears_outputs
    (s : ClientState) (i : Int) (p : PCell) (out : Option String)
    (append : Bool)
    (hcell : jsGet s.notebookContent i = some p)
    (hout : strTruthy out = false) :
    (handleSocketMessage s ⟨some i, some "running", out, append⟩).executingCells
      = insert i s.executingCells
    ∧ (handleSocketMessage s ⟨some i, some "running", out, append⟩).notebookContent
      = s.notebookContent.set i.toNat (some { p with outputs := some [] })
    ∧ ∀ j : Nat, j ≠ i.toNat →
        (handleSocketMessage s
            ⟨some i, some "running", out, append⟩).notebookContent.getD j none
          = s.notebookContent.getD j none := by
  have hbody : handleSocketMessage s ⟨some i, some "running", out, append⟩
      = { s with
          executingCells := insert i s.executingCells,
          notebookContent :=
            s.notebookContent.set i.toNat
              (some { p with outputs := some [] }) } := by
    simp only [handleSocketMessage, hout, Bool.false_eq_true, if_false,
      setCellOutputsEmpty, hcell]
    simp
  refine ⟨by rw [hbody], by rw [hbody], fun j hj => ?_⟩
  rw [hbody]
  simp only [List.getD_eq_getElem?_getD]
  rw [List.getElem?_set_ne (by omega)]

/-- Witness for C2 (amended) on a one-cell notebook. -/
theorem running_marks_executing_clears_outputs_witness :
    jsGet [mkCell .code ["x"] ["old"]] 0 = some ⟨some .code, some ["x"], some ["old"]⟩
    ∧ (handleSocketMessage ⟨[mkCell .code ["x"] ["old"]], ∅, true⟩
        ⟨some 0, some "running", none, false⟩).notebookContent
      = [mkCell .code ["x"] ["old"]].set 0
          (some ⟨some .code, some ["x"], some []⟩) :=
  ⟨by decide,
    (running_marks_executing_clears_outputs ⟨[mkCell .code ["x"] ["old"]], ∅, true⟩
      0 ⟨some .code, some ["x"], some ["old"]⟩ none false (by decide)
      (by decide)).2.1⟩

/-- Counterexample to C3 as stated: `updateCell(1, {})` on a one-cell list
is not a no-op — JS index assignment extends the array, so the length
becomes 2 and a patch-only object appears at index 1. -/
theorem updateCell_out_of_range_counterexample :
    updateCell [mkCell .code ["a"] []] 1 ⟨none, none, none⟩
      = [mkCell .code ["a"] [], some ⟨none, none, none⟩]
    ∧ (updateCell [mkCell .code ["a"] []] 1 ⟨none, none, none⟩).length ≠ 1 := by
  decide

lemma mergeSpread_none (patch : PCell) : mergeSpread none patch = patch := by
  cases patch
  simp [mergeSpread]

/-- Claim C3 (amended): `updateCell(index, patch)` with a negative index
leaves the cell list unchanged, but with `index ≥ length` it silently
extends the list: the skipped slots become holes (`undefined`) and slot
`index` becomes an object holding only the patch's fields, so the length
becomes `index + 1`. -/
theorem updateCell_out_of_range (l : List JsCell) (i : Int) (patch : PCell) :
    (i < 0 → updateCell l i patch = l)
    ∧ (0 ≤ i → (l.length : Int) ≤ i →
        updateCell l i patch
          = l ++ List.replicate (i.toNat - l.length) none ++ [some patch]
        ∧ (updateCell l i patch).length = i.toNat + 1) := by
  constructor
  · intro hneg
    unfold updateCell
    rw [if_neg (by omega : ¬ (0 : Int) ≤ i)]
  · intro h0 hge
    have hgetnone : jsGet l i = none := jsGet_eq_none_of_ge l i hge
    have heq : updateCell l i patch
        = l ++ List.replicate (i.toNat - l.length) none ++ [some patch] := by
      simp only [updateCell, if_pos h0, hgetnone, mergeSpread_none, jsSet,
        if_neg (by omega : ¬ i.toNat < l.length)]
    refine ⟨heq, ?_⟩
    rw [heq]
    simp only [List.length_append, List.length_replicate, List.length_cons,
      List.length_nil]
    omega

/-- Witness for C3 (amended): a negative index is a no-op, `updateCell(3,·)`
on a one-cell list yields length 4 with holes at 1 and 2. -/
theorem updateCell_out_of_range_witness :
    updateCell [mkCell .code ["a"] []] (-2) ⟨none, none, none⟩
      = [mkCell .code ["a"] []]
    ∧ updateCell [mkCell .code ["a"] []] 3 ⟨none, some ["x"], none⟩
      = [mkCell .code ["a"] []] ++ List.replicate 2 none
          ++ [some ⟨none, some ["x"], none⟩]
    ∧ (updateCell [mkCell .code ["a"] []] 3 ⟨none, some ["x"], none⟩).length
      = 4 :=
  ⟨(updateCell_out_of_range [mkCell .code ["a"] []] (-2) ⟨none, none, none⟩).1
      (by decide),
    ((updateCell_out_of_range [mkCell .code ["a"] []] 3
        ⟨none, some ["x"], none⟩).2 (by decide) (by decide)).1,
    by decide⟩

lemma jsGet_set_self (l : List JsCell) (i : Int) (v : JsCell)
    (h0 : 0 ≤ i) (h : i.toNat < l.length) :
    jsGet (l.set i.toNat v) i = v := by
  rw [jsGet_eq_getElem? h0]
  rw [List.getElem?_set_self (by simpa using h)]
  rfl

/-- Counterexample to C5 as stated: an `execution_result` that carries both
status `running` and an `append:true` output chunk does not append to the
existing outputs list `["old"]` — the `running` branch clears it first, so
the result is `["new"]`, not `["old", "new"]`. -/
theorem append_after_running_counterexample :
    ((handleSocketMessage ⟨[mkCell .code ["x"] ["old"]], ∅, true⟩
        ⟨some 0, some "running", some "new", true⟩).notebookContent.getD
          0 none).bind PCell.outputs = some ["new"]
    ∧ some ["new"] ≠ some ["old", "new"] := by decide

/-- Claim C5 (amended): for a cell at an in-range index, an
`execution_result` event carrying a truthy output chunk and not also
carrying status `running` replaces the cell's outputs with the single chunk
when `append` is false and appends it when `append` is true; hence two
consecutive `append:true` events leave both chunks in arrival order
(a list of length 2 when the outputs started empty). -/
theorem execution_output_append_replace
    (s : ClientState) (i : Int) (p : PCell) (st : Option String)
    (c1 c2 : String) (hst : st ≠ some "running")
    (hc1 : c1 ≠ "") (hc2 : c2 ≠ "")
    (hcell : jsGet s.notebookContent i = some p) :
    ((handleSocketMessage s ⟨some i, st, some c1, false⟩).notebookContent.getD
        i.toNat none).bind PCell.outputs = some [c1]
    ∧ ((handleSocketMessage s ⟨some i, st, some c1, true⟩).notebookContent.getD
        i.toNat none).bind PCell.outputs = some (p.outputs.getD [] ++ [c1])
    ∧ ((handleSocketMessage
          (handleSocketMessage s ⟨some i, st, some c1, true⟩)
          ⟨some i, st, some c2, true⟩).notebookContent.getD i.toNat none).bind
        PCell.outputs = some (p.outputs.getD [] ++ [c1, c2]) := by
  obtain ⟨h0, hlt⟩ := jsGet_isSome_bounds hcell
  have hcontent : ∀ (t : ClientState) (q : PCell) (ap : Bool) (c : String),
      c ≠ "" → jsGet t.notebookContent i = some q →
      (handleSocketMessage t ⟨some i, st, some c, ap⟩).notebookContent
        = t.notebookContent.set i.toNat
            (some { q with
              outputs := some (if ap then q.outputs.getD [] ++ [c]
                else [c]) }) := by
    intro t q ap c hc hq
    have htr : strTruthy (some c) = true := by simp [strTruthy, hc]
    simp only [handleSocketMessage, htr, if_true, if_neg hst]
    by_cases h2 : st = some "completed" ∨ st = some "error"
    · simp only [if_pos h2, applyOutputChunk, hq, Option.getD_some]
    · simp only [if_neg h2, applyOutputChunk, hq, Option.getD_some]
  have hread : ∀ (m : List JsCell) (q : PCell),
      m.length = s.notebookContent.length →
      ((m.set i.toNat (some q)).getD i.toNat none).bind PCell.outputs
        = q.outputs := by
    intro m q hm
    simp only [List.getD_eq_getElem?_getD]
    rw [List.getElem?_set_self (by omega)]
    rfl
  refine ⟨?_, ?_, ?_⟩
  · rw [hcontent s p false c1 hc1 hcell,
      hread s.notebookContent _ rfl]
    simp
  · rw [hcontent s p true c1 hc1 hcell,
      hread s.notebookContent _ rfl]
    simp
  · have h1 := hcontent s p true c1 hc1 hcell
    have hget1 : jsGet (handleSocketMessage s
        ⟨some i, st, some c1, true⟩).notebookContent i
        = some { p with outputs := some (p.outputs.getD [] ++ [c1]) } := by
      rw [h1]
      simpa using jsGet_set_self s.notebookContent i _ h0 hlt
    rw [hcontent _ _ true c2 hc2 hget1]
    have hlen1 : (handleSocketMessage s
        ⟨some i, st, some c1, true⟩).notebookContent.length
        = s.notebookContent.length := by
      rw [h1, List.length_set]
    rw [hread _ _ hlen1]
    simp

/-- Witness for C5 (amended): replace then two appends on a one-cell
notebook whose outputs start as `["old"]`. -/
theorem execution_output_append_replace_witness :
    ((handleSocketMessage ⟨[mkCell .code ["x"] ["old"]], ∅, true⟩
        ⟨some 0, some "completed", some "a", false⟩).notebookContent.getD
          0 none).bind PCell.outputs = some ["a"]
    ∧ ((handleSocketMessage
          (handleSocketMessage ⟨[mkCell .code ["x"] ["old"]], ∅, true⟩
            ⟨some 0, some "completed", some "a", true⟩)
          ⟨some 0, some "completed", some "b", true⟩).notebookContent.getD
            0 none).bind PCell.outputs = some ["old", "a", "b"] :=
  ⟨(execution_output_append_replace ⟨[mkCell .code ["x"] ["old"]], ∅, true⟩
      0 ⟨some .code, some ["x"], some ["old"]⟩ (some "completed") "a" "b"
      (by decide) (by decide) (by decide) (by decide)).1,
    (execution_output_append_replace ⟨[mkCell .code ["x"] ["old"]], ∅, true⟩
      0 ⟨some .code, some ["x"], some ["old"]⟩ (some "completed") "a" "b"
      (by decide) (by decide) (by decide) (by decide)).2.2⟩

/-- Claim C4: `executeCell` on an in-range code cell whose joined source is
empty or whitespace-only never transmits a run request (no socket emit, no
HTTP execute call), always surfaces exactly the warning notification, and
leaves the client state (cell list and executing set) unchanged — whatever
the connection state and whatever the HTTP fallback would have returned. -/
theorem executeCell_blank_guard (s : ClientState) (i : Int) (p : PCell)
    (src : List String) (connected : Bool) (httpResult : HttpExecOutcome)
    (hcell : jsGet s.notebookContent i = some p)
    (htype : p.cell_type = some CellType.code)
    (hsrc : p.source = some src)
    (hblank : jsTrim (String.join src) = "") :
    executeCell s i connected httpResult
      = some ⟨[("Cell is empty", Severity.warning)], [], 0, s⟩ := by
  simp [executeCell, hcell, htype, hsrc, hblank]

/-- Witness for C4: a whitespace-only code cell. -/
theorem executeCell_blank_guard_witness :
    jsTrim (String.join ["  ", "\t"]) = ""
    ∧ executeCell ⟨[mkCell .code ["  ", "\t"] ["o"]], ∅, true⟩ 0 false
        (.ok (some ["evil"]))
      = some ⟨[("Cell is empty", Severity.warning)], [], 0,
          ⟨[mkCell .code ["  ", "\t"] ["o"]], ∅, true⟩⟩ :=
  ⟨by decide,
    executeCell_blank_guard ⟨[mkCell .code ["  ", "\t"] ["o"]], ∅, true⟩ 0
      ⟨some .code, some ["  ", "\t"], some ["o"]⟩ ["  ", "\t"] false
      (.ok (some ["evil"])) (by decide) (by decide) (by decide) (by decide)⟩

/-- Claim C6: a `read_cell_output_request` with a numeric `cell_index` and
a truthy `request_id` is answered with exactly one
`read_cell_output_response` carrying that same id: the cell's outputs when
the indexed cell exists, and an explicit empty list (never an omitted
reply) when the index is at or beyond the cell count; analogously
`read_cell_input_request` is answered with an empty string for a missing
cell. -/
theorem read_request_single_reply (l : List JsCell) (i : Int) (rid : String)
    (hrid : rid ≠ "") :
    (handleReadCellOutputRequest l ⟨some i, some rid⟩).length = 1
    ∧ (∀ r ∈ handleReadCellOutputRequest l ⟨some i, some rid⟩,
        r.request_id = rid)
    ∧ (∀ p : PCell, jsGet l i = some p →
        handleReadCellOutputRequest l ⟨some i, some rid⟩
          = [⟨rid, p.outputs.getD []⟩])
    ∧ ((l.length : Int) ≤ i →
        handleReadCellOutputRequest l ⟨some i, some rid⟩ = [⟨rid, []⟩])
    ∧ ((l.length : Int) ≤ i →
        handleReadCellInputRequest l ⟨some i, some rid⟩ = some [⟨rid, ""⟩]) := by
  refine ⟨?_, ?_, ?_, ?_, ?_⟩
  · cases h : jsGet l i <;>
      simp [handleReadCellOutputRequest, hrid, h]
  · intro r hr
    cases h : jsGet l i <;>
      simp [handleReadCellOutputRequest, hrid, h] at hr <;>
      simp [hr]
  · intro p hp
    simp [handleReadCellOutputRequest, hrid, hp]
  · intro hge
    simp [handleReadCellOutputRequest, hrid, jsGet_eq_none_of_ge l i hge]
  · intro hge
    simp [handleReadCellInputRequest, hrid, jsGet_eq_none_of_ge l i hge]

/-- Witness for C6: an index beyond a one-cell notebook gets an explicit
empty reply on both request kinds. -/
theorem read_request_single_reply_witness :
    handleReadCellOutputRequest [mkCell .code ["a"] ["out"]] ⟨some 7, some "r1"⟩
      = [⟨"r1", []⟩]
    ∧ handleReadCellInputRequest [mkCell .code ["a"] ["out"]] ⟨some 7, some "r1"⟩
      = some [⟨"r1", ""⟩] :=
  ⟨(read_request_single_reply [mkCell .code ["a"] ["out"]] 7 "r1"
      (by decide)).2.2.2.1 (by decide),
    (read_request_single_reply [mkCell .code ["a"] ["out"]] 7 "r1"
      (by decide)).2.2.2.2 (by decide)⟩

lemma runSchedules_burst (rest : List Nat) : ∀ (prev n : Nat),
    List.Chain (fun a b => a ≤ b ∧ b < a + 200) prev rest →
    ∃ q, runSchedules true true ⟨some (prev + 200), n⟩ rest = ⟨some q, n⟩ := by
  induction rest with
  | nil => exact fun prev n _ => ⟨prev + 200, rfl⟩
  | cons t rest ih =>
    intro prev n h
    obtain ⟨⟨hle, hlt⟩, hrest⟩ := List.chain_cons.mp h
    have hstep : runSchedules true true ⟨some (prev + 200), n⟩ (t :: rest)
        = runSchedules true true ⟨some (t + 200), n⟩ rest := by
      simp only [runSchedules, elapse, if_neg (by omega : ¬ prev + 200 ≤ t),
        scheduleAutoSave]
      rfl
    rw [hstep]
    exact ih t n hrest

/-- Claim C7: the autosave scheduler is a single-slot debounce — each
`scheduleAutoSave` call (with autosave enabled and a notebook open) cancels
any pending timer and re-arms it for 200ms later without firing a save by
itself, so a burst of mutations whose consecutive gaps are all shorter than
200ms fires exactly one persisted save, after the quiet period. -/
theorem autosave_debounce_single_save (t : Nat) (rest : List Nat)
    (hchain : List.Chain (fun a b => a ≤ b ∧ b < a + 200) t rest) :
    totalSaves true true (t :: rest) = 1
    ∧ ∀ (now : Nat) (st : AutoSaveState),
        scheduleAutoSave true true now st = ⟨some (now + 200), st.saves⟩ := by
  constructor
  · have hhead : runSchedules true true ⟨none, 0⟩ (t :: rest)
        = runSchedules true true ⟨some (t + 200), 0⟩ rest := by
      simp only [runSchedules, elapse, scheduleAutoSave]
      rfl
    obtain ⟨q, hq⟩ := runSchedules_burst rest t 0 hchain
    simp only [totalSaves, hhead, hq, Option.isSome_some, if_true]
  · intro now st
    simp [scheduleAutoSave]

/-- Witness for C7 at the spec's own scenario: 5 rapid `updateCell`-driven
schedules inside the debounce window fire exactly one save. -/
theorem autosave_debounce_single_save_witness :
    totalSaves true true [0, 50, 100, 150, 190] = 1 :=
  (autosave_debounce_single_save 0 [50, 100, 150, 190]
    (by simp only [List.chain_cons, List.Chain.nil, and_true]; omega)).1

/-- Claim C8: the completion bridge never hangs — `pythonCompletion`
returns "no suggestions" (`null`) when the request fails, when the status
is non-ok and when the server returns no matches, and `filePathCompletion`
returns `null` when its fixed 5s timeout elapses, when an error event
arrives and when the completion list is empty; on success
`pythonCompletion` applies the server-given `cursor_start`/`cursor_end`
replacement span exactly as received. -/
theorem completion_bridge_no_hang :
    (∀ ctx : CompletionCtx, pythonCompletion ctx .failure = none)
    ∧ (∀ ctx : CompletionCtx, pythonCompletion ctx .notOk = none)
    ∧ (∀ (ctx : CompletionCtx) (st en : Int),
        pythonCompletion ctx (.ok ⟨none, st, en⟩) = none
        ∧ pythonCompletion ctx (.ok ⟨some [], st, en⟩) = none)
    ∧ (∀ ctx : FilePathCtx, filePathCompletion ctx .timeout = none)
    ∧ (∀ ctx : FilePathCtx, filePathCompletion ctx .errorEvent = none)
    ∧ (∀ ctx : FilePathCtx, filePathCompletion ctx (.response []) = none)
    ∧ (∀ (ctx : CompletionCtx) (ms : List String) (st en : Int),
        ctx.matched = true →
        (ctx.wordFrom ≠ ctx.wordTo ∨ ctx.explicit = true) → ms ≠ [] →
        pythonCompletion ctx (.ok ⟨some ms, st, en⟩) = some ⟨st, en, ms⟩) := by
  refine ⟨?_, ?_, ?_, ?_, ?_, ?_, ?_⟩
  · intro ctx
    unfold pythonCompletion
    split <;> rfl
  · intro ctx
    unfold pythonCompletion
    split <;> rfl
  · intro ctx st en
    constructor <;> (unfold pythonCompletion; split <;> rfl)
  · intro ctx
    obtain ⟨ipc, pp, ex, ps, snf⟩ := ctx
    cases ipc <;> cases pp <;> cases ex <;> simp [filePathCompletion]
  · intro ctx
    obtain ⟨ipc, pp, ex, ps, snf⟩ := ctx
    cases ipc <;> cases pp <;> cases ex <;> simp [filePathCompletion]
  · intro ctx
    obtain ⟨ipc, pp, ex, ps, snf⟩ := ctx
    cases ipc <;> cases pp <;> cases ex <;> simp [filePathCompletion]
  · intro ctx ms st en hm hguard hms
    have hg : (!ctx.matched || (ctx.wordFrom = ctx.wordTo && !ctx.explicit))
        = false := by
      rcases hguard with h | h <;> simp [hm, h]
    unfold pythonCompletion
    rw [hg]
    simp [hms]

/-- Witness for C8's success clause: the server-given span `(4, 7)` is
applied exactly as received. -/
theorem completion_bridge_no_hang_witness :
    pythonCompletion ⟨true, 4, 7, false, "import nu", 9⟩
        (.ok ⟨some ["numpy"], 4, 7⟩)
      = some ⟨4, 7, ["numpy"]⟩
    ∧ pythonCompletion ⟨true, 4, 7, false, "import nu", 9⟩ .failure = none :=
  ⟨completion_bridge_no_hang.2.2.2.2.2.2
      ⟨true, 4, 7, false, "import nu", 9⟩ ["numpy"] 4 7 rfl
      (by left; decide) (by decide),
    completion_bridge_no_hang.1 ⟨true, 4, 7, false, "import nu", 9⟩⟩

lemma jsSetI_length_of_lt (l : List JsCell) (i : Int) (v : JsCell)
    (h0 : 0 ≤ i) (h : i.toNat < l.length) :
    (jsSetI l i v).length = l.length := by
  simp [jsSetI, jsSet, h0, h]

lemma jsSetI_neg (l : List JsCell) (i : Int) (v : JsCell) (h : i < 0) :
    jsSetI l i v = l := by
  unfold jsSetI
  rw [if_neg (by omega : ¬ (0 : Int) ≤ i)]

lemma enumFrom_filter_length_out (idx : Int) : ∀ (l : List JsCell) (n : Nat),
    (idx < (n : Int) ∨ (n : Int) + l.length ≤ idx) →
    (((List.enumFrom n l).filter fun p => (p.1 : Int) ≠ idx).map
        Prod.snd).length = l.length := by
  intro l
  induction l with
  | nil => intro n _; simp
  | cons x xs ih =>
    intro n hout
    rw [List.enumFrom_cons, List.filter_cons,
      if_pos (decide_eq_true (by simp at hout ⊢; omega))]
    rw [List.map_cons, List.length_cons, List.length_cons,
      ih (n + 1) (by simp at hout ⊢; omega)]

lemma enumFrom_filter_length_in (idx : Int) : ∀ (l : List JsCell) (n : Nat),
    (n : Int) ≤ idx → idx < (n : Int) + l.length →
    (((List.enumFrom n l).filter fun p => (p.1 : Int) ≠ idx).map
        Prod.snd).length = l.length - 1 := by
  intro l
  induction l with
  | nil => intro n h1 h2; simp at h1 h2; omega
  | cons x xs ih =>
    intro n h1 h2
    rw [List.enumFrom_cons, List.filter_cons]
    by_cases h : (n : Int) = idx
    · rw [if_neg (by simp [h])]
      rw [enumFrom_filter_length_out idx xs (n + 1) (by omega)]
      simp
    · rw [if_pos (decide_eq_true (by simpa using h))]
      rw [List.map_cons, List.length_cons,
        ih (n + 1) (by omega) (by simp at h2 ⊢; omega)]
      simp only [List.length_cons]
      have hxs : 1 ≤ xs.length := by simp at h2; omega
      omega

lemma handleDeleteCell_length (l : List JsCell) (idx : Int)
    (h0 : 0 ≤ idx) (h1 : idx < (l.length : Int)) :
    (handleDeleteCell l idx).length = l.length - 1 := by
  unfold handleDeleteCell
  have henum : l.enum = List.enumFrom 0 l := rfl
  rw [henum]
  exact enumFrom_filter_length_in idx l 0 (by omega) (by omega)

lemma handleMoveCellUp_length (l : List JsCell) (i : Int)
    (h : i < (l.length : Int)) :
    (handleMoveCellUp l i).length = l.length := by
  unfold handleMoveCellUp
  split
  case isTrue h0 =>
    have hm : (i - 1).toNat < l.length := by omega
    have hi : i.toNat < l.length := by omega
    have hinner : (jsSetI l (i - 1) (jsGet l i)).length = l.length :=
      jsSetI_length_of_lt _ _ _ (by omega) hm
    rw [jsSetI_length_of_lt _ _ _ (by omega) (by rw [hinner]; exact hi)]
    exact hinner
  case isFalse _ => rfl

lemma handleMoveCellDown_length (l : List JsCell) (i : Int) :
    (handleMoveCellDown l i).length = l.length := by
  unfold handleMoveCellDown
  split
  case isFalse _ => rfl
  case isTrue hg =>
    show (jsSetI (jsSetI l i (jsGet l (i + 1))) (i + 1)
        (jsGet l i)).length = l.length
    by_cases h0 : 0 ≤ i
    · have hi : i.toNat < l.length := by omega
      have hi1 : (i + 1).toNat < l.length := by omega
      have hinner : (jsSetI l i (jsGet l (i + 1))).length = l.length :=
        jsSetI_length_of_lt _ _ _ h0 hi
      rw [jsSetI_length_of_lt _ _ _ (by omega) (by rw [hinner]; exact hi1)]
      exact hinner
    · rw [jsSetI_neg l i (jsGet l (i + 1)) (by omega)]
      by_cases h1 : 0 ≤ i + 1
      · exact jsSetI_length_of_lt l (i + 1) (jsGet l i) h1 (by omega)
      · rw [jsSetI_neg l (i + 1) (jsGet l i) (by omega)]

lemma applyOps_length (ops : List CellOp) : ∀ l : List JsCell,
    wfTrace l ops = true →
    ((applyOps l ops).length : Int)
      = (l.length : Int) + (ops.map opDelta).sum := by
  induction ops with
  | nil => intro l _; simp [applyOps]
  | cons op rest ih =>
    intro l h
    simp only [wfTrace, Bool.and_eq_true] at h
    obtain ⟨hop, htr⟩ := h
    have hstep : ((applyOp l op).length : Int)
        = (l.length : Int) + opDelta op := by
      cases op with
      | add => simp [applyOp, addCell, opDelta]
      | delete i =>
        simp only [wfOp, Bool.and_eq_true, decide_eq_true_eq] at hop
        rw [show applyOp l (.delete i) = handleDeleteCell l i from rfl,
          handleDeleteCell_length l i hop.1 hop.2]
        simp only [opDelta]
        omega
      | up i =>
        simp only [wfOp, decide_eq_true_eq] at hop
        rw [show applyOp l (.up i) = handleMoveCellUp l i from rfl,
          handleMoveCellUp_length l i hop]
        simp [opDelta]
      | down i =>
        rw [show applyOp l (.down i) = handleMoveCellDown l i from rfl,
          handleMoveCellDown_length l i]
        simp [opDelta]
    simp only [applyOps, List.map_cons, List.sum_cons]
    rw [ih _ htr, hstep]
    ring

/-- Claim C9: over any sequence of `addCell` / in-range `deleteCell` /
`moveUp` / `moveDown` operations, the cell count changes by exactly +1 per
add and −1 per delete and is left unchanged by every move — in particular
`moveUp` and `moveDown` preserve the length at the boundaries (`moveUp 0`
and `moveDown` at the last index are guarded no-ops). -/
theorem cell_ops_length_invariant (l : List JsCell) (ops : List CellOp)
    (h : wfTrace l ops = true) :
    ((applyOps l ops).length : Int)
      = (l.length : Int) + (ops.map opDelta).sum
    ∧ (∀ i : Int, i < (l.length : Int) →
        (handleMoveCellUp l i).length = l.length)
    ∧ (∀ i : Int, (handleMoveCellDown l i).length = l.length) :=
  ⟨applyOps_length ops l h,
    fun i hi => handleMoveCellUp_length l i hi,
    fun i => handleMoveCellDown_length l i⟩

/-- Witness for C9: an add, two boundary-adjacent moves and a delete on a
one-cell notebook end at length 1, matching the add/delete deltas. -/
theorem cell_ops_length_invariant_witness :
    wfTrace [mkCell .code ["a"] []]
        [CellOp.add, CellOp.up 1, CellOp.down 0, CellOp.delete 0] = true
    ∧ ((applyOps [mkCell .code ["a"] []]
          [CellOp.add, CellOp.up 1, CellOp.down 0,
            CellOp.delete 0]).length : Int)
      = (([mkCell .code ["a"] []] : List JsCell).length : Int)
        + ([CellOp.add, CellOp.up 1, CellOp.down 0,
            CellOp.delete 0].map opDelta).sum
    ∧ (applyOps [mkCell .code ["a"] []]
        [CellOp.add, CellOp.up 1, CellOp.down 0, CellOp.delete 0]).length
      = 1 :=
  ⟨by decide,
    (cell_ops_length_invariant [mkCell .code ["a"] []]
      [CellOp.add, CellOp.up 1, CellOp.down 0, CellOp.delete 0]
      (by decide)).1,
    by decide⟩

end IPuppy
